import Mathlib

/-!
Verification of the trick-taking card-game RL environment in
`src/card_rl/env.py` (class `CardGameEnv` and the card-codec helpers).

The Python code is shallowly embedded: the mutable environment object
becomes an explicit state record (`CardGameEnv`), the shared
`random.Random` generator becomes an explicit deterministic stream
(`Rng`) threaded through every operation, Python exceptions become an
`Except` result, and the float rewards (always exactly `±1.0`) are
modelled as integers.  `random.shuffle` is modelled by the Fisher-Yates
loop it implements (one draw per position, taken modulo the position
bound), and `random.choice` by one draw taken modulo the list length;
all theorems below are universally quantified over the stream, so they
hold for every seed.
-/

namespace CardRL

/-! ### Card codec — env.py lines 13-30 -/

/-- `suit_of(card_id) = card_id // 13` (env.py line 13). -/
def suit_of (card_id : Nat) : Nat := card_id / 13

/-- `rank_of(card_id) = card_id % 13` (env.py line 17). -/
def rank_of (card_id : Nat) : Nat := card_id % 13

/-- `encode_card(rank, suit) = suit * 13 + rank` (env.py line 25). -/
def encode_card (rank suit : Nat) : Nat := suit * 13 + rank

/-- `decode_card(card_id) = (rank_of(card_id), suit_of(card_id))` (env.py line 29). -/
def decode_card (card_id : Nat) : Nat × Nat := (rank_of card_id, suit_of card_id)

/-! ### Random generator model

`random.Random(seed)` is a deterministic pseudo-random stream fixed by
the seed.  It is modelled as a stream `seq : Nat → Nat` together with a
cursor; every draw reads the stream at the cursor and advances it. -/

structure Rng where
  seq : Nat → Nat
  idx : Nat

def Rng.next (r : Rng) : Nat × Rng :=
  (r.seq r.idx, { r with idx := r.idx + 1 })

/-- Model of `rng.choice(l)` for nonempty `l`: one draw, reduced modulo
the length.  (Python raises on an empty list; the engine only calls
`choice` on nonempty lists.) -/
def Rng.choice (r : Rng) (l : List Nat) : Nat × Rng :=
  (l.getD (r.next.1 % l.length) 0, r.next.2)

/-- Swap the entries at positions `i` and `j` (no-op out of range). -/
def swapL (l : List Nat) (i j : Nat) : List Nat :=
  match l[i]?, l[j]? with
  | some a, some b => (l.set i b).set j a
  | _, _ => l

/-- The Fisher-Yates loop of `random.shuffle`: for `i` from `n-1` down
to `1`, draw `j ≤ i` and swap positions `i` and `j`. -/
def shuffleAux : Nat → Rng → List Nat → List Nat × Rng
  | 0, r, l => (l, r)
  | i + 1, r, l => shuffleAux i r.next.2 (swapL l (i + 1) (r.next.1 % (i + 2)))

/-- Model of `rng.shuffle(l)` (env.py line 64 uses it on the 52-card deck). -/
def Rng.shuffle (r : Rng) (l : List Nat) : List Nat × Rng :=
  shuffleAux (l.length - 1) r l

/-- Model of Python `sorted` on a list of card ids (env.py line 65). -/
def sortHand (l : List Nat) : List Nat :=
  l.mergeSort (fun a b => decide (a ≤ b))

/-! ### Environment state -/

/-- `TrickState` dataclass (env.py lines 33-36). -/
structure TrickState where
  leader : Nat
  plays : List (Nat × Nat)
deriving DecidableEq

/-- The two exception kinds `step` can raise (env.py lines 80-84):
`RuntimeError("Episode is done...")` and `ValueError("Invalid action...")`. -/
inductive Err where
  | episodeFinished
  | invalidAction
deriving DecidableEq

/-- The observation dict built by `_obs` (env.py lines 123-133). -/
structure Obs where
  hand : List Nat
  current_trick : List (Nat × Nat)
  trick_leader : Option Nat
  tricks_won : Nat × Nat
  tens_won : Nat × Nat
  remaining_tricks : Nat
  current_player : Nat
deriving DecidableEq

/-- The tuple returned by a successful `step`
(`obs, reward, terminated, truncated, info` with `info = {}`). -/
structure StepOut where
  obs : Obs
  reward : Int
  terminated : Bool
  truncated : Bool
deriving DecidableEq

/-- The mutable state of a `CardGameEnv` instance (env.py lines 48-57).
`tricks_won` / `tens_won` are the dicts `{0: _, 1: _}` as ordered pairs. -/
structure CardGameEnv where
  rng : Rng
  hands : List (List Nat)
  tricks_won : Nat × Nat
  tens_won : Nat × Nat
  current_trick : Option TrickState
  current_player : Nat
  done : Bool
  dealt : Bool
  rounds_played : Nat

/-- `self.hands[pid]`. -/
def handOf (e : CardGameEnv) (pid : Nat) : List Nat :=
  e.hands.getD pid []

/-- `CardGameEnv.__init__(seed)` (env.py lines 48-57); the `Rng` value
stands for `random.Random(seed)`. -/
def CardGameEnv.init (rng : Rng) : CardGameEnv :=
  { rng := rng
  , hands := [[], [], [], []]
  , tricks_won := (0, 0)
  , tens_won := (0, 0)
  , current_trick := none
  , current_player := 0
  , done := false
  , dealt := false
  , rounds_played := 0 }

/-- One comparison step of Python `min(l, key=rank_of)`: keep the
earlier element unless the new one is strictly smaller. -/
def minStep (acc c : Nat) : Nat :=
  if rank_of c < rank_of acc then c else acc

/-- Python `min(l, key=rank_of)` on a nonempty list: the first element
of minimal rank (Python's `min` keeps the earlier element on ties). -/
def minByRank (l : List Nat) : Nat :=
  match l with
  | [] => 0
  | x :: xs => xs.foldl minStep x

/-- One comparison step of Python `max(plays, key=...)`: keep the
earlier element unless the new one is strictly greater. -/
def maxStep (acc pc : Nat × Nat) : Nat × Nat :=
  if rank_of acc.2 < rank_of pc.2 then pc else acc

/-- Python `max(plays, key=lambda pc: rank_of(pc[1]))` on a nonempty
list: the first play of maximal rank (Python's `max` keeps the earlier
element on ties). -/
def maxByRank (l : List (Nat × Nat)) : Nat × Nat :=
  match l with
  | [] => (0, 0)
  | x :: xs => xs.foldl maxStep x

/-- `0 if winner_pid in (0, 2) else 1` (env.py line 179). -/
def teamOf (pid : Nat) : Nat :=
  if pid = 0 ∨ pid = 2 then 0 else 1

/-- `d[team] += k` on a two-key dict `{0: _, 1: _}` with `team ∈ {0,1}`. -/
def bumpT (team k : Nat) (d : Nat × Nat) : Nat × Nat :=
  if team = 0 then (d.1 + k, d.2) else (d.1, d.2 + k)

/-- `CardGameEnv._play_card(pid, card)` (env.py lines 135-163), with the
console printing dropped.  The returned `Bool` records whether the
revert-and-replace branch (lines 153-158) executed.  The `none` case of
`current_trick` corresponds to the `assert` on line 139 (unreachable
from `step`); Python `list.remove` on a missing element raises, but the
engine only plays cards that are in the hand, so plain `erase` is used. -/
def CardGameEnv._play_card (pid card : Nat) (e : CardGameEnv) : CardGameEnv × Bool :=
  let h1 := (handOf e pid).erase card
  match e.current_trick with
  | none =>
      ({ e with hands := e.hands.set pid h1
              , current_player := (e.current_player + 1) % 4 }, false)
  | some t =>
      let plays1 := t.plays ++ [(pid, card)]
      if plays1.length > 1 then
        let lead_suit := suit_of (plays1.headD (0, 0)).2
        if suit_of card ≠ lead_suit then
          let led_suit_cards := h1.filter (fun c => suit_of c == lead_suit)
          if led_suit_cards ≠ [] then
            let follow_card := minByRank led_suit_cards
            let h2 := (h1 ++ [card]).erase follow_card
            ({ e with hands := e.hands.set pid h2
                    , current_trick := some { t with plays := plays1.dropLast ++ [(pid, follow_card)] }
                    , current_player := (e.current_player + 1) % 4 }, true)
          else
            ({ e with hands := e.hands.set pid h1
                    , current_trick := some { t with plays := plays1 }
                    , current_player := (e.current_player + 1) % 4 }, false)
        else
          ({ e with hands := e.hands.set pid h1
                  , current_trick := some { t with plays := plays1 }
                  , current_player := (e.current_player + 1) % 4 }, false)
      else
        ({ e with hands := e.hands.set pid h1
                , current_trick := some { t with plays := plays1 }
                , current_player := (e.current_player + 1) % 4 }, false)

/-- The body of the loop over `pid in [1, 2, 3]` in `step`
(env.py lines 96-101): skip an empty hand, otherwise pick a random
lead-suit card when one exists (else a random card) and play it. -/
def oppPlay (pid lead_suit : Nat) (e : CardGameEnv) : CardGameEnv × Bool :=
  if handOf e pid = [] then (e, false)
  else
    let same_suit_cards := (handOf e pid).filter (fun c => suit_of c == lead_suit)
    let pick := if same_suit_cards ≠ [] then e.rng.choice same_suit_cards
                else e.rng.choice (handOf e pid)
    CardGameEnv._play_card pid pick.1 { e with rng := pick.2 }

/-- `if self.current_trick is None or len(self.current_trick.plays) == 4`
(env.py lines 87-89). -/
def freshIfNeeded (e : CardGameEnv) : CardGameEnv :=
  match e.current_trick with
  | none => { e with current_trick := some { leader := 0, plays := [] }, current_player := 0 }
  | some t =>
      if t.plays.length == 4 then
        { e with current_trick := some { leader := 0, plays := [] }, current_player := 0 }
      else e

/-- `lead_suit = suit_of(self.current_trick.plays[0][1])` (env.py line 95);
the trick is nonempty there because the agent has just played. -/
def leadSuitOf (e : CardGameEnv) : Nat :=
  match e.current_trick with
  | some t => suit_of (t.plays.headD (0, 0)).2
  | none => 0

/-- The play phase of `step` (env.py lines 86-101): agent plays, then
seats 1, 2, 3; the `Bool` is true iff some `_play_card` call fired the
revert-and-replace branch. -/
def CardGameEnv.stepBody (e : CardGameEnv) (action : Nat) : CardGameEnv × Bool :=
  let p0 := CardGameEnv._play_card 0 action (freshIfNeeded e)
  let lead_suit := leadSuitOf p0.1
  let p1 := oppPlay 1 lead_suit p0.1
  let p2 := oppPlay 2 lead_suit p1.1
  let p3 := oppPlay 3 lead_suit p2.1
  (p3.1, ((p0.2 || p1.2) || p2.2) || p3.2)

/-- `CardGameEnv._is_trick_complete` (env.py lines 172-173). -/
def CardGameEnv._is_trick_complete (e : CardGameEnv) : Bool :=
  match e.current_trick with
  | some t => t.plays.length == 4
  | none => false

/-- `CardGameEnv.compute_reward(winner_team)` (env.py lines 202-207),
the default scoring policy: `+1.0` if team 0 won, else `-1.0`. -/
def CardGameEnv.compute_reward (winner_team : Nat) : Int :=
  if winner_team = 0 then 1 else -1

/-- `CardGameEnv._end_trick_and_score` (env.py lines 175-199), returning
`(reward, new state)`.  The `none` case corresponds to the `assert` on
line 176 (unreachable from `step`). -/
def CardGameEnv._end_trick_and_score (e : CardGameEnv) : Int × CardGameEnv :=
  match e.current_trick with
  | none => (0, e)
  | some t =>
      let winner_pid := (maxByRank t.plays).1
      let winner_team := teamOf winner_pid
      let tens_in_trick := (t.plays.filter (fun pc => rank_of pc.2 == 8)).length
      (CardGameEnv.compute_reward winner_team,
        { e with tricks_won := bumpT winner_team 1 e.tricks_won
               , tens_won := if tens_in_trick ≠ 0 then bumpT winner_team tens_in_trick e.tens_won
                             else e.tens_won
               , rounds_played := e.rounds_played + 1
               , current_player := 0
               , current_trick := some { leader := 0, plays := [] }
               , done := e.done || (handOf e 0).isEmpty })

/-- `CardGameEnv._obs` (env.py lines 123-133). -/
def CardGameEnv._obs (e : CardGameEnv) : Obs :=
  { hand := sortHand (handOf e 0)
  , current_trick := match e.current_trick with
                     | some t => t.plays
                     | none => []
  , trick_leader := match e.current_trick with
                    | some t => some t.leader
                    | none => none
  , tricks_won := e.tricks_won
  , tens_won := e.tens_won
  , remaining_tricks := (handOf e 0).length
  , current_player := e.current_player }

/-- `CardGameEnv.step(action)` (env.py lines 75-111), instrumented with
the revert-branch flag of `stepBody`.  The error cases return the state
exactly as it stood when the exception was raised. -/
def CardGameEnv.stepAux (e : CardGameEnv) (action : Nat) :
    (CardGameEnv × Except Err StepOut) × Bool :=
  if e.done then ((e, Except.error Err.episodeFinished), false)
  else if action ∉ handOf e 0 then ((e, Except.error Err.invalidAction), false)
  else
    let b := CardGameEnv.stepBody e action
    let r := if CardGameEnv._is_trick_complete b.1 then CardGameEnv._end_trick_and_score b.1
             else (0, b.1)
    ((r.2, Except.ok { obs := CardGameEnv._obs r.2
                     , reward := r.1
                     , terminated := r.2.done
                     , truncated := false }), b.2)

/-- `CardGameEnv.step(action)` as the caller sees it. -/
def CardGameEnv.step (e : CardGameEnv) (action : Nat) : CardGameEnv × Except Err StepOut :=
  (CardGameEnv.stepAux e action).1

/-- `CardGameEnv.reset` (env.py lines 60-73): shuffle the deck `0..51`,
deal four sorted hands of 13 contiguous cards, clear all counters. -/
def CardGameEnv.reset (e : CardGameEnv) : CardGameEnv × Obs :=
  let sh := Rng.shuffle e.rng (List.range 52)
  let e' : CardGameEnv :=
    { rng := sh.2
    , hands := (List.range 4).map (fun i => sortHand ((sh.1.drop (i * 13)).take 13))
    , tricks_won := (0, 0)
    , tens_won := (0, 0)
    , current_trick := some { leader := 0, plays := [] }
    , current_player := 0
    , done := false
    , dealt := true
    , rounds_played := 0 }
  (e', CardGameEnv._obs e')

/-- Run a sequence of `step` calls, collecting each call's result. -/
def runSteps (e : CardGameEnv) : List Nat → CardGameEnv × List (Except Err StepOut)
  | [] => (e, [])
  | a :: rest =>
      let s := CardGameEnv.step e a
      let r := runSteps s.1 rest
      (r.1, s.2 :: r.2)

/-- The states reachable through the public API: a `reset` (from any
prior state, i.e. any seed) followed by any sequence of `step` calls. -/
inductive Reach : CardGameEnv → Prop
  | reset (e0 : CardGameEnv) : Reach (CardGameEnv.reset e0).1
  | step (e : CardGameEnv) (a : Nat) (h : Reach e) : Reach (CardGameEnv.step e a).1

/-- `self.tricks_won[team]` for `team ∈ {0, 1}`. -/
def tricksOf (e : CardGameEnv) (team : Nat) : Nat :=
  if team = 0 then e.tricks_won.1 else e.tricks_won.2

/-- `self.tens_won[team]` for `team ∈ {0, 1}`. -/
def tensOf (e : CardGameEnv) (team : Nat) : Nat :=
  if team = 0 then e.tens_won.1 else e.tens_won.2

/-! ### List helper lemmas -/

lemma getD_set_self {α : Type} (l : List α) (i : Nat) (x d : α) (h : i < l.length) :
    (l.set i x).getD i d = x := by
  rw [List.getD_eq_getElem?_getD, List.getElem?_set_self h]
  rfl

lemma getD_set_ne {α : Type} (l : List α) (i j : Nat) (x d : α) (h : i ≠ j) :
    (l.set i x).getD j d = l.getD j d := by
  rw [List.getD_eq_getElem?_getD, List.getElem?_set_ne h, ← List.getD_eq_getElem?_getD]

lemma cons_set_perm {α : Type} (x y : α) :
    ∀ (t : List α) (j : Nat), t[j]? = some y → (y :: t.set j x).Perm (x :: t) := by
  intro t
  induction t with
  | nil => intro j h; simp at h
  | cons c t ih =>
    intro j h
    cases j with
    | zero =>
      simp only [List.getElem?_cons_zero, Option.some_inj] at h
      subst h
      simpa using List.Perm.swap x c t
    | succ k =>
      simp only [List.getElem?_cons_succ] at h
      have h1 := ih k h
      have e1 : (y :: (c :: t).set (k + 1) x) = y :: c :: t.set k x := by simp
      rw [e1]
      exact (List.Perm.swap c y _).trans ((h1.cons c).trans (List.Perm.swap x c t))

lemma set_set_perm {α : Type} :
    ∀ (l : List α) (i j : Nat) (a b : α),
      l[i]? = some a → l[j]? = some b → ((l.set i b).set j a).Perm l := by
  intro l
  induction l with
  | nil => intro i j a b hi _; simp at hi
  | cons c t ih =>
    intro i j a b hi hj
    cases i with
    | zero =>
      simp only [List.getElem?_cons_zero, Option.some_inj] at hi
      subst hi
      cases j with
      | zero =>
        simp only [List.getElem?_cons_zero, Option.some_inj] at hj
        subst hj
        simp
      | succ k =>
        simp only [List.getElem?_cons_succ] at hj
        have : ((c :: t).set 0 b).set (k + 1) c = b :: t.set k c := by simp
        rw [this]
        exact cons_set_perm c b t k hj
    | succ m =>
      simp only [List.getElem?_cons_succ] at hi
      cases j with
      | zero =>
        simp only [List.getElem?_cons_zero, Option.some_inj] at hj
        subst hj
        have : ((c :: t).set (m + 1) c).set 0 a = a :: t.set m c := by simp
        rw [this]
        exact cons_set_perm c a t m hi
      | succ k =>
        simp only [List.getElem?_cons_succ] at hj
        have : ((c :: t).set (m + 1) b).set (k + 1) a = c :: (t.set m b).set k a := by simp
        rw [this]
        exact (ih m k a b hi hj).cons c

lemma swapL_perm (l : List Nat) (i j : Nat) : (swapL l i j).Perm l := by
  unfold swapL
  cases hi : l[i]? with
  | none => simp
  | some a =>
    cases hj : l[j]? with
    | none => simp
    | some b => exact set_set_perm l i j a b hi hj

lemma shuffleAux_perm : ∀ (n : Nat) (r : Rng) (l : List Nat), ((shuffleAux n r l).1).Perm l := by
  intro n
  induction n with
  | zero => intro r l; simp [shuffleAux]
  | succ i ih =>
    intro r l
    exact (ih _ _).trans (swapL_perm l (i + 1) (r.next.1 % (i + 2)))

lemma shuffle_perm (r : Rng) (l : List Nat) : ((r.shuffle l).1).Perm l :=
  shuffleAux_perm (l.length - 1) r l

lemma sortHand_perm (l : List Nat) : (sortHand l).Perm l :=
  List.mergeSort_perm l _

lemma sortHand_sorted (l : List Nat) : (sortHand l).Sorted (· ≤ ·) :=
  List.sorted_mergeSort' l

lemma sortHand_length (l : List Nat) : (sortHand l).length = l.length :=
  (sortHand_perm l).length_eq

lemma choice_mem (r : Rng) (l : List Nat) (h : l ≠ []) : (r.choice l).1 ∈ l := by
  unfold Rng.choice
  have hlen : r.next.1 % l.length < l.length := Nat.mod_lt _ (List.length_pos.mpr h)
  simp only [List.getD_eq_getElem?_getD, List.getElem?_eq_getElem hlen, Option.getD_some]
  exact List.getElem_mem hlen

lemma foldl_minStep_mem (xs : List Nat) : ∀ x : Nat, xs.foldl minStep x ∈ x :: xs := by
  induction xs with
  | nil => intro x; simp
  | cons q xs ih =>
    intro x
    simp only [List.foldl_cons]
    rcases List.mem_cons.1 (ih (minStep x q)) with h | h
    · rw [h]
      unfold minStep
      by_cases hc : rank_of q < rank_of x <;> simp [hc]
    · simp [List.mem_cons, h]

lemma minByRank_mem (l : List Nat) (h : l ≠ []) : minByRank l ∈ l := by
  cases l with
  | nil => exact absurd rfl h
  | cons x xs => exact foldl_minStep_mem xs x

lemma filter_erase_nil (l : List Nat) (c : Nat) (p : Nat → Bool) (h : l.filter p = []) :
    (l.erase c).filter p = [] := by
  rw [List.filter_eq_nil_iff] at h ⊢
  exact fun a ha => h a (List.erase_subset _ _ ha)

lemma foldl_maxStep_firstmax (xs : List (Nat × Nat)) :
    ∀ x : Nat × Nat, ∃ l1 l2,
      x :: xs = l1 ++ (xs.foldl maxStep x) :: l2 ∧
      (∀ q ∈ l1, rank_of q.2 < rank_of (xs.foldl maxStep x).2) ∧
      (∀ q ∈ l2, rank_of q.2 ≤ rank_of (xs.foldl maxStep x).2) := by
  induction xs with
  | nil => intro x; exact ⟨[], [], by simp, by simp, by simp⟩
  | cons q xs ih =>
    intro x
    simp only [List.foldl_cons]
    by_cases hq : rank_of x.2 < rank_of q.2
    · rw [show maxStep x q = q from if_pos hq]
      obtain ⟨l1, l2, hdec, hlt, hle⟩ := ih q
      have hqle : rank_of q.2 ≤ rank_of (xs.foldl maxStep q).2 := by
        cases l1 with
        | nil =>
          simp only [List.nil_append] at hdec
          obtain ⟨h1, _⟩ := List.cons.inj hdec
          exact le_of_eq (congrArg (fun p => rank_of p.2) h1)
        | cons p l1' =>
          rw [List.cons_append] at hdec
          obtain ⟨h1, _⟩ := List.cons.inj hdec
          subst h1
          exact le_of_lt (hlt q (List.mem_cons_self q l1'))
      refine ⟨x :: l1, l2, by rw [List.cons_append, ← hdec], ?_, hle⟩
      intro r hr
      rcases List.mem_cons.1 hr with h | h
      · exact h ▸ lt_of_lt_of_le hq hqle
      · exact hlt r h
    · rw [show maxStep x q = x from if_neg hq]
      obtain ⟨l1, l2, hdec, hlt, hle⟩ := ih x
      cases l1 with
      | nil =>
        simp only [List.nil_append] at hdec
        obtain ⟨h1, h2⟩ := List.cons.inj hdec
        refine ⟨[], q :: xs, by rw [List.nil_append, ← h1], by simp, ?_⟩
        intro r hr
        rcases List.mem_cons.1 hr with h | h
        · rw [h, ← h1]
          exact Nat.le_of_not_lt hq
        · exact hle r (h2 ▸ h)
      | cons p l1' =>
        rw [List.cons_append] at hdec
        obtain ⟨h1, h2⟩ := List.cons.inj hdec
        subst h1
        have hxm : rank_of x.2 < rank_of (xs.foldl maxStep x).2 :=
          hlt x (List.mem_cons_self x l1')
        refine ⟨x :: q :: l1', l2, ?_, ?_, hle⟩
        · rw [List.cons_append, List.cons_append, ← h2]
        · intro r hr
          rcases List.mem_cons.1 hr with h | h
          · exact h ▸ hxm
          · rcases List.mem_cons.1 h with h' | h'
            · exact h' ▸ lt_of_le_of_lt (Nat.le_of_not_lt hq) hxm
            · exact hlt r (List.mem_cons_of_mem x h')

lemma maxByRank_firstmax (l : List (Nat × Nat)) (h : l ≠ []) :
    ∃ l1 l2,
      l = l1 ++ (maxByRank l) :: l2 ∧
      (∀ q ∈ l1, rank_of q.2 < rank_of (maxByRank l).2) ∧
      (∀ q ∈ l2, rank_of q.2 ≤ rank_of (maxByRank l).2) := by
  cases l with
  | nil => exact absurd rfl h
  | cons x xs => exact foldl_maxStep_firstmax xs x

/-! ### Branch lemmas for `_play_card` -/

/-- A play into an empty trick (the leader's play) is never corrected:
the length check on env.py line 148 fails. -/
lemma play_card_fresh (e : CardGameEnv) (pid card L : Nat)
    (ht : e.current_trick = some { leader := L, plays := [] }) :
    CardGameEnv._play_card pid card e =
      ({ e with hands := e.hands.set pid ((handOf e pid).erase card)
              , current_trick := some { leader := L, plays := [(pid, card)] }
              , current_player := (e.current_player + 1) % 4 }, false) := by
  unfold CardGameEnv._play_card
  rw [ht]
  rfl

/-- A non-leading play that either follows suit or is made from a hand
with no lead-suit card left stays as played (env.py lines 148-152 with
the correction not firing). -/
lemma play_card_keep (e : CardGameEnv) (pid card : Nat) (t : TrickState)
    (p : Nat × Nat) (ps : List (Nat × Nat)) (ht : e.current_trick = some t)
    (hps : t.plays = p :: ps)
    (hk : suit_of card = suit_of p.2 ∨
          ((handOf e pid).erase card).filter (fun c => suit_of c == suit_of p.2) = []) :
    CardGameEnv._play_card pid card e =
      ({ e with hands := e.hands.set pid ((handOf e pid).erase card)
              , current_trick := some { t with plays := t.plays ++ [(pid, card)] }
              , current_player := (e.current_player + 1) % 4 }, false) := by
  unfold CardGameEnv._play_card
  rw [ht]
  dsimp only
  rw [hps]
  rw [show ((p :: ps) ++ [(pid, card)]).headD (0, 0) = p from by simp]
  rw [if_pos (show ((p :: ps) ++ [(pid, card)]).length > 1 from by simp)]
  rcases hk with hs | hnil
  · rw [if_neg (show ¬ suit_of card ≠ suit_of p.2 from by simp [hs])]
  · by_cases hs : suit_of card = suit_of p.2
    · rw [if_neg (show ¬ suit_of card ≠ suit_of p.2 from by simp [hs])]
    · rw [if_pos (show suit_of card ≠ suit_of p.2 from hs)]
      rw [if_neg (show ¬ ((handOf e pid).erase card).filter
        (fun c => suit_of c == suit_of p.2) ≠ [] from by simp [hnil])]

/-- A non-leading off-suit play from a hand that still holds a
lead-suit card is reverted and replaced by the lowest-rank lead-suit
card (env.py lines 153-158). -/
lemma play_card_fire (e : CardGameEnv) (pid card : Nat) (t : TrickState)
    (p : Nat × Nat) (ps : List (Nat × Nat)) (ht : e.current_trick = some t)
    (hps : t.plays = p :: ps)
    (hs : ¬ suit_of card = suit_of p.2)
    (hled : ((handOf e pid).erase card).filter (fun c => suit_of c == suit_of p.2) ≠ []) :
    CardGameEnv._play_card pid card e =
      ({ e with hands := e.hands.set pid
                  ((((handOf e pid).erase card) ++ [card]).erase
                    (minByRank (((handOf e pid).erase card).filter
                      (fun c => suit_of c == suit_of p.2))))
              , current_trick := some { t with plays := t.plays ++
                  [(pid, minByRank (((handOf e pid).erase card).filter
                      (fun c => suit_of c == suit_of p.2)))] }
              , current_player := (e.current_player + 1) % 4 }, true) := by
  unfold CardGameEnv._play_card
  rw [ht]
  dsimp only
  rw [hps]
  rw [show ((p :: ps) ++ [(pid, card)]).headD (0, 0) = p from by simp]
  rw [if_pos (show ((p :: ps) ++ [(pid, card)]).length > 1 from by simp)]
  rw [if_pos (show suit_of card ≠ suit_of p.2 from hs)]
  rw [if_pos hled]
  rw [List.dropLast_concat]

/-- No branch of `_play_card` touches the score counters, the round
counter, the done flag or the generator. -/
lemma play_card_counters (pid card : Nat) (e : CardGameEnv) :
    (CardGameEnv._play_card pid card e).1.tricks_won = e.tricks_won ∧
    (CardGameEnv._play_card pid card e).1.tens_won = e.tens_won ∧
    (CardGameEnv._play_card pid card e).1.rounds_played = e.rounds_played ∧
    (CardGameEnv._play_card pid card e).1.done = e.done ∧
    (CardGameEnv._play_card pid card e).1.rng = e.rng := by
  unfold CardGameEnv._play_card
  cases ht : e.current_trick with
  | none => simp
  | some t =>
    dsimp only
    split_ifs <;> simp

/-- C1: after any completed trick, for every seat `s` that is not the
leader, the card recorded for `s` either has the lead suit (the suit of
the trick's first play) or `s`'s hand at the moment the play was
resolved contained no card of the lead suit.  Stated at the level of
`_play_card`, which is the only way a play enters a trick: for every
non-leading play (the trick already holds its first play `p`), the
recorded card `c` either has the lead suit `suit_of p.2`, or the play
stands as submitted and the whole hand held no lead-suit card. -/
theorem C1_suit_following (e : CardGameEnv) (pid card : Nat) (t : TrickState)
    (p : Nat × Nat) (ps : List (Nat × Nat))
    (ht : e.current_trick = some t) (hps : t.plays = p :: ps)
    (hmem : card ∈ handOf e pid) :
    ∃ c, (CardGameEnv._play_card pid card e).1.current_trick
          = some { leader := t.leader, plays := t.plays ++ [(pid, c)] } ∧
      (suit_of c = suit_of p.2 ∨
        (c = card ∧ ∀ x ∈ handOf e pid, suit_of x ≠ suit_of p.2)) := by
  by_cases hs : suit_of card = suit_of p.2
  · refine ⟨card, ?_, Or.inl hs⟩
    rw [play_card_keep e pid card t p ps ht hps (Or.inl hs)]
  · by_cases hled : ((handOf e pid).erase card).filter
        (fun c => suit_of c == suit_of p.2) = []
    · refine ⟨card, ?_, Or.inr ⟨rfl, ?_⟩⟩
      · rw [play_card_keep e pid card t p ps ht hps (Or.inr hled)]
      · intro x hx
        by_cases hxc : x = card
        · exact hxc ▸ hs
        · have hx' : x ∈ (handOf e pid).erase card := (List.mem_erase_of_ne hxc).2 hx
          have := (List.filter_eq_nil_iff.1 hled) x hx'
          simpa using this
    · refine ⟨minByRank (((handOf e pid).erase card).filter
        (fun c => suit_of c == suit_of p.2)), ?_, Or.inl ?_⟩
      · rw [play_card_fire e pid card t p ps ht hps hs hled]
      · have hmem' := minByRank_mem _ hled
        have := List.mem_filter.1 hmem'
        simpa using this.2

/-- Behaviour of one auto-policy seat (env.py lines 96-101) on a trick
whose first play has the given lead suit: the seat plays some card of
its own hand, the play is recorded as chosen, and the correction branch
does not fire. -/
lemma oppPlay_spec (e : CardGameEnv) (pid lead : Nat) (t : TrickState)
    (p : Nat × Nat) (ps : List (Nat × Nat))
    (ht : e.current_trick = some t) (hps : t.plays = p :: ps)
    (hlead : suit_of p.2 = lead) (hne : handOf e pid ≠ []) :
    ∃ c r', c ∈ handOf e pid ∧
      oppPlay pid lead e =
        ({ e with rng := r'
                , hands := e.hands.set pid ((handOf e pid).erase c)
                , current_trick := some { t with plays := t.plays ++ [(pid, c)] }
                , current_player := (e.current_player + 1) % 4 }, false) := by
  unfold oppPlay
  rw [if_neg hne]
  dsimp only
  by_cases hsame : (handOf e pid).filter (fun c => suit_of c == lead) ≠ []
  · rw [if_pos hsame]
    have hcmem : (e.rng.choice ((handOf e pid).filter (fun c => suit_of c == lead))).1
        ∈ (handOf e pid).filter (fun c => suit_of c == lead) :=
      choice_mem _ _ hsame
    have hcin := (List.mem_filter.1 hcmem).1
    have hcsuit : suit_of (e.rng.choice ((handOf e pid).filter
        (fun c => suit_of c == lead))).1 = lead := by
      simpa using (List.mem_filter.1 hcmem).2
    refine ⟨(e.rng.choice ((handOf e pid).filter (fun c => suit_of c == lead))).1,
      (e.rng.choice ((handOf e pid).filter (fun c => suit_of c == lead))).2, hcin, ?_⟩
    exact play_card_keep _ pid _ t p ps ht hps (Or.inl (by rw [hcsuit, hlead]))
  · rw [if_neg hsame]
    have hsame' : (handOf e pid).filter (fun c => suit_of c == lead) = [] :=
      not_ne_iff.1 hsame
    have hcin : (e.rng.choice (handOf e pid)).1 ∈ handOf e pid := choice_mem _ _ hne
    have hflt : (handOf e pid).filter (fun c => suit_of c == suit_of p.2) = [] := by
      rw [hlead]; exact hsame'
    refine ⟨(e.rng.choice (handOf e pid)).1, (e.rng.choice (handOf e pid)).2, hcin, ?_⟩
    exact play_card_keep _ pid _ t p ps ht hps (Or.inr (filter_erase_nil _ _ _ hflt))

/-! ### Counter preservation through the play phase -/

lemma freshIfNeeded_counters (e : CardGameEnv) :
    (freshIfNeeded e).tricks_won = e.tricks_won ∧ (freshIfNeeded e).tens_won = e.tens_won ∧
    (freshIfNeeded e).rounds_played = e.rounds_played ∧ (freshIfNeeded e).done = e.done := by
  unfold freshIfNeeded
  cases e.current_trick with
  | none => exact ⟨rfl, rfl, rfl, rfl⟩
  | some t =>
    dsimp only
    split_ifs <;> exact ⟨rfl, rfl, rfl, rfl⟩

lemma oppPlay_counters (pid lead : Nat) (e : CardGameEnv) :
    (oppPlay pid lead e).1.tricks_won = e.tricks_won ∧
    (oppPlay pid lead e).1.tens_won = e.tens_won ∧
    (oppPlay pid lead e).1.rounds_played = e.rounds_played ∧
    (oppPlay pid lead e).1.done = e.done := by
  unfold oppPlay
  by_cases h : handOf e pid = []
  · rw [if_pos h]
    exact ⟨rfl, rfl, rfl, rfl⟩
  · rw [if_neg h]
    dsimp only
    obtain ⟨h1, h2, h3, h4, _⟩ := play_card_counters pid
      (if (handOf e pid).filter (fun c => suit_of c == lead) ≠ []
       then e.rng.choice ((handOf e pid).filter (fun c => suit_of c == lead))
       else e.rng.choice (handOf e pid)).1
      { e with rng := (if (handOf e pid).filter (fun c => suit_of c == lead) ≠ []
                       then e.rng.choice ((handOf e pid).filter (fun c => suit_of c == lead))
                       else e.rng.choice (handOf e pid)).2 }
    exact ⟨h1, h2, h3, h4⟩

lemma stepBody_counters (e : CardGameEnv) (a : Nat) :
    (CardGameEnv.stepBody e a).1.tricks_won = e.tricks_won ∧
    (CardGameEnv.stepBody e a).1.tens_won = e.tens_won ∧
    (CardGameEnv.stepBody e a).1.rounds_played = e.rounds_played ∧
    (CardGameEnv.stepBody e a).1.done = e.done := by
  unfold CardGameEnv.stepBody
  dsimp only
  obtain ⟨f1, f2, f3, f4⟩ := freshIfNeeded_counters e
  obtain ⟨a1, a2, a3, a4, _⟩ := play_card_counters 0 a (freshIfNeeded e)
  obtain ⟨b1, b2, b3, b4⟩ := oppPlay_counters 1
    (leadSuitOf (CardGameEnv._play_card 0 a (freshIfNeeded e)).1)
    (CardGameEnv._play_card 0 a (freshIfNeeded e)).1
  obtain ⟨c1, c2, c3, c4⟩ := oppPlay_counters 2
    (leadSuitOf (CardGameEnv._play_card 0 a (freshIfNeeded e)).1)
    (oppPlay 1 (leadSuitOf (CardGameEnv._play_card 0 a (freshIfNeeded e)).1)
      (CardGameEnv._play_card 0 a (freshIfNeeded e)).1).1
  obtain ⟨d1, d2, d3, d4⟩ := oppPlay_counters 3
    (leadSuitOf (CardGameEnv._play_card 0 a (freshIfNeeded e)).1)
    (oppPlay 2 (leadSuitOf (CardGameEnv._play_card 0 a (freshIfNeeded e)).1)
      (oppPlay 1 (leadSuitOf (CardGameEnv._play_card 0 a (freshIfNeeded e)).1)
        (CardGameEnv._play_card 0 a (freshIfNeeded e)).1).1).1
  exact ⟨((d1.trans c1).trans b1).trans (a1.trans f1),
         ((d2.trans c2).trans b2).trans (a2.trans f2),
         ((d3.trans c3).trans b3).trans (a3.trans f3),
         ((d4.trans c4).trans b4).trans (a4.trans f4)⟩

/-! ### Scoring lemmas -/

/-- Explicit description of `_end_trick_and_score` on a present trick. -/
lemma end_trick_spec (e : CardGameEnv) (t : TrickState) (ht : e.current_trick = some t) :
    CardGameEnv._end_trick_and_score e =
      (CardGameEnv.compute_reward (teamOf (maxByRank t.plays).1),
       { e with tricks_won := bumpT (teamOf (maxByRank t.plays).1) 1 e.tricks_won
              , tens_won := if (t.plays.filter (fun pc => rank_of pc.2 == 8)).length ≠ 0
                            then bumpT (teamOf (maxByRank t.plays).1)
                                   ((t.plays.filter (fun pc => rank_of pc.2 == 8)).length) e.tens_won
                            else e.tens_won
              , rounds_played := e.rounds_played + 1
              , current_player := 0
              , current_trick := some { leader := 0, plays := [] }
              , done := e.done || (handOf e 0).isEmpty }) := by
  unfold CardGameEnv._end_trick_and_score
  rw [ht]

lemma end_trick_mono (e : CardGameEnv) :
    e.tricks_won.1 ≤ (CardGameEnv._end_trick_and_score e).2.tricks_won.1 ∧
    e.tricks_won.2 ≤ (CardGameEnv._end_trick_and_score e).2.tricks_won.2 ∧
    e.tens_won.1 ≤ (CardGameEnv._end_trick_and_score e).2.tens_won.1 ∧
    e.tens_won.2 ≤ (CardGameEnv._end_trick_and_score e).2.tens_won.2 := by
  unfold CardGameEnv._end_trick_and_score
  cases e.current_trick with
  | none => simp
  | some t =>
    dsimp only
    unfold bumpT
    split_ifs <;> refine ⟨?_, ?_, ?_, ?_⟩ <;> simp

/-! ### The deal -/

lemma swapL_length (l : List Nat) (i j : Nat) : (swapL l i j).length = l.length :=
  (swapL_perm l i j).length_eq

lemma shuffle_length (r : Rng) (l : List Nat) : ((r.shuffle l).1).length = l.length :=
  (shuffle_perm r l).length_eq

lemma reset_hands (e : CardGameEnv) :
    (CardGameEnv.reset e).1.hands =
      [sortHand (((e.rng.shuffle (List.range 52)).1).take 13),
       sortHand ((((e.rng.shuffle (List.range 52)).1).drop 13).take 13),
       sortHand ((((e.rng.shuffle (List.range 52)).1).drop 26).take 13),
       sortHand ((((e.rng.shuffle (List.range 52)).1).drop 39).take 13)] := rfl

lemma chunks_append (l : List Nat) (hl : l.length = 52) :
    l.take 13 ++ ((l.drop 13).take 13 ++ ((l.drop 26).take 13 ++ (l.drop 39).take 13)) = l := by
  have h39 : (l.drop 39).take 13 = l.drop 39 := by
    apply List.take_of_length_le
    simp [hl]
  rw [h39]
  have e1 : (l.drop 26).take 13 ++ l.drop 39 = l.drop 26 := by
    have h : l.drop 39 = (l.drop 26).drop 13 := by rw [List.drop_drop]
    rw [h, List.take_append_drop]
  rw [e1]
  have e2 : (l.drop 13).take 13 ++ l.drop 26 = l.drop 13 := by
    have h : l.drop 26 = (l.drop 13).drop 13 := by rw [List.drop_drop]
    rw [h, List.take_append_drop]
  rw [e2]
  exact List.take_append_drop 13 l

/-- All the deal guarantees of `reset` at once: four hands of 13,
sorted, duplicate-free, pairwise disjoint, jointly covering `0..51`. -/
lemma deal_core (e : CardGameEnv) :
    (CardGameEnv.reset e).1.hands.length = 4 ∧
    (∀ h ∈ (CardGameEnv.reset e).1.hands, h.length = 13 ∧ h.Sorted (· ≤ ·) ∧ h.Nodup) ∧
    (CardGameEnv.reset e).1.hands.Pairwise List.Disjoint ∧
    (∀ c : Nat, (∃ h ∈ (CardGameEnv.reset e).1.hands, c ∈ h) ↔ c < 52) := by
  rw [reset_hands]
  set d := (e.rng.shuffle (List.range 52)).1 with hdd
  have hdl : d.length = 52 := by
    rw [hdd, shuffle_length]
    simp
  have hperm : d.Perm (List.range 52) := shuffle_perm _ _
  set H0 := sortHand (d.take 13) with h0
  set H1 := sortHand ((d.drop 13).take 13) with h1
  set H2 := sortHand ((d.drop 26).take 13) with h2
  set H3 := sortHand ((d.drop 39).take 13) with h3
  have hcat : (H0 ++ (H1 ++ (H2 ++ H3))).Perm (List.range 52) := by
    refine List.Perm.trans ?_ hperm
    have hp := ((sortHand_perm (d.take 13)).append
      ((sortHand_perm ((d.drop 13).take 13)).append
        ((sortHand_perm ((d.drop 26).take 13)).append
          (sortHand_perm ((d.drop 39).take 13)))))
    rw [h0, h1, h2, h3]
    exact hp.trans (List.Perm.of_eq (chunks_append d hdl))
  have hnodup : (H0 ++ (H1 ++ (H2 ++ H3))).Nodup :=
    hcat.symm.nodup (List.nodup_range 52)
  rw [List.nodup_append] at hnodup
  obtain ⟨n0, hrest, dis0⟩ := hnodup
  rw [List.nodup_append] at hrest
  obtain ⟨n1, hrest2, dis1⟩ := hrest
  rw [List.nodup_append] at hrest2
  obtain ⟨n2, n3, d23⟩ := hrest2
  rw [List.disjoint_append_right] at dis0 dis1
  obtain ⟨d01, d0r⟩ := dis0
  rw [List.disjoint_append_right] at d0r
  obtain ⟨d02, d03⟩ := d0r
  obtain ⟨d12, d13⟩ := dis1
  have l0 : H0.length = 13 := by
    rw [h0, sortHand_length, List.length_take, hdl]
    omega
  have l1 : H1.length = 13 := by
    rw [h1, sortHand_length, List.length_take, List.length_drop, hdl]
    omega
  have l2 : H2.length = 13 := by
    rw [h2, sortHand_length, List.length_take, List.length_drop, hdl]
    omega
  have l3 : H3.length = 13 := by
    rw [h3, sortHand_length, List.length_take, List.length_drop, hdl]
    omega
  refine ⟨rfl, ?_, ?_, ?_⟩
  · intro h hh
    have hh' : h = H0 ∨ h = H1 ∨ h = H2 ∨ h = H3 := by
      simpa using hh
    rcases hh' with rfl | rfl | rfl | rfl
    · exact ⟨l0, h0 ▸ sortHand_sorted _, n0⟩
    · exact ⟨l1, h1 ▸ sortHand_sorted _, n1⟩
    · exact ⟨l2, h2 ▸ sortHand_sorted _, n2⟩
    · exact ⟨l3, h3 ▸ sortHand_sorted _, n3⟩
  · refine List.Pairwise.cons ?_ (List.Pairwise.cons ?_ (List.Pairwise.cons ?_ ?_))
    · intro h hh
      have hh' : h = H1 ∨ h = H2 ∨ h = H3 := by simpa using hh
      rcases hh' with rfl | rfl | rfl
      · exact d01
      · exact d02
      · exact d03
    · intro h hh
      have hh' : h = H2 ∨ h = H3 := by simpa using hh
      rcases hh' with rfl | rfl
      · exact d12
      · exact d13
    · intro h hh
      have hh' : h = H3 := by simpa using hh
      rcases hh' with rfl
      exact d23
    · simp
  · intro c
    have hmem : c ∈ H0 ++ (H1 ++ (H2 ++ H3)) ↔ c < 52 := by
      rw [hcat.mem_iff, List.mem_range]
    constructor
    · rintro ⟨h, hh, hc⟩
      have hh' : h = H0 ∨ h = H1 ∨ h = H2 ∨ h = H3 := by simpa using hh
      refine hmem.1 ?_
      rcases hh' with rfl | rfl | rfl | rfl <;> simp [hc]
    · intro hc
      have := hmem.2 hc
      rcases List.mem_append.1 this with h | h
      · exact ⟨H0, by simp, h⟩
      rcases List.mem_append.1 h with h | h
      · exact ⟨H1, by simp, h⟩
      rcases List.mem_append.1 h with h | h
      · exact ⟨H2, by simp, h⟩
      · exact ⟨H3, by simp, h⟩

/-! ### The reachability invariant -/

lemma reset_fields (e : CardGameEnv) :
    (CardGameEnv.reset e).1.rounds_played = 0 ∧
    (CardGameEnv.reset e).1.done = false ∧
    (CardGameEnv.reset e).1.current_trick = some { leader := 0, plays := [] } ∧
    (CardGameEnv.reset e).1.tricks_won = (0, 0) ∧
    (CardGameEnv.reset e).1.tens_won = (0, 0) ∧
    (CardGameEnv.reset e).1.current_player = 0 :=
  ⟨rfl, rfl, rfl, rfl, rfl, rfl⟩

/-- State invariant holding at every reachable state (between `step`
calls): four synchronized hands, a fresh trick led by seat 0, and the
done flag and score totals tied to the round counter. -/
def Inv (e : CardGameEnv) : Prop :=
  e.hands.length = 4 ∧
  e.rounds_played ≤ 13 ∧
  (∀ pid, pid < 4 → (handOf e pid).length = 13 - e.rounds_played) ∧
  e.current_trick = some { leader := 0, plays := [] } ∧
  (e.done = true ↔ e.rounds_played = 13) ∧
  e.tricks_won.1 + e.tricks_won.2 = e.rounds_played

lemma inv_reset (e : CardGameEnv) : Inv (CardGameEnv.reset e).1 := by
  obtain ⟨hl4, hhands, _, _⟩ := deal_core e
  refine ⟨hl4, ?_, ?_, rfl, ?_, rfl⟩
  · show (0 : Nat) ≤ 13
    omega
  · intro pid hp
    have hb : pid < (CardGameEnv.reset e).1.hands.length := by rw [hl4]; exact hp
    have hh : handOf (CardGameEnv.reset e).1 pid = (CardGameEnv.reset e).1.hands[pid] := by
      rw [handOf, List.getD_eq_getElem?_getD, List.getElem?_eq_getElem hb]
      rfl
    rw [hh, (hhands _ (List.getElem_mem hb)).1]
    rfl
  · rw [(reset_fields e).1, (reset_fields e).2.1]
    simp

lemma bumpT_zero (w : Nat) (d : Nat × Nat) : bumpT w 0 d = d := by
  unfold bumpT
  split_ifs <;> simp

lemma step_done (e : CardGameEnv) (a : Nat) (h : e.done = true) :
    CardGameEnv.stepAux e a = ((e, Except.error Err.episodeFinished), false) := by
  unfold CardGameEnv.stepAux
  rw [if_pos h]

lemma step_invalid (e : CardGameEnv) (a : Nat) (h : e.done = false) (hm : a ∉ handOf e 0) :
    CardGameEnv.stepAux e a = ((e, Except.error Err.invalidAction), false) := by
  unfold CardGameEnv.stepAux
  rw [if_neg (by simp [h]), if_pos hm]

/-- Full description of a successful `step` from an invariant state:
the agent leads a fresh trick, the three auto seats follow, the revert
branch never fires, and the trick is scored exactly once. -/
lemma step_ok_spec (e : CardGameEnv) (a : Nat)
    (hI : Inv e) (hdone : e.done = false) (ha : a ∈ handOf e 0) :
    ∃ e' out w,
      CardGameEnv.stepAux e a = ((e', Except.ok out), false) ∧
      Inv e' ∧
      e'.rounds_played = e.rounds_played + 1 ∧
      (w = 0 ∨ w = 1) ∧
      e'.tricks_won = bumpT w 1 e.tricks_won ∧
      (∃ k, e'.tens_won = bumpT w k e.tens_won) ∧
      out.reward = CardGameEnv.compute_reward w ∧
      out.terminated = e'.done := by
  obtain ⟨h4, hr13, hlen, ht, hdfl, hsum⟩ := hI
  have hrne : e.rounds_played ≠ 13 := by
    intro h13
    have hcontra := hdfl.2 h13
    rw [hdone] at hcontra
    exact Bool.false_ne_true hcontra
  have hrlt : e.rounds_played < 13 := lt_of_le_of_ne hr13 hrne
  have hn : ∀ pid, pid < 4 → handOf e pid ≠ [] := by
    intro pid hp hnil
    have hx := hlen pid hp
    rw [hnil] at hx
    simp at hx
    omega
  have h0lt : 0 < e.hands.length := by omega
  have hfresh : freshIfNeeded e = e := by
    unfold freshIfNeeded
    rw [ht]
    rfl
  set A0 := (handOf e 0).erase a with hA0def
  set E2 := { e with hands := e.hands.set 0 A0
                   , current_trick := some { leader := 0, plays := [(0, a)] }
                   , current_player := (e.current_player + 1) % 4 } with hE2def
  have hp0 : CardGameEnv._play_card 0 a e = (E2, false) := play_card_fresh e 0 a 0 ht
  have hE2h : ∀ pid, pid ≠ 0 → handOf E2 pid = handOf e pid := by
    intro pid hp
    exact getD_set_ne e.hands 0 pid A0 [] (fun hh => hp hh.symm)
  obtain ⟨c1, r1, hc1m, ho1⟩ :=
    oppPlay_spec E2 1 (suit_of a) { leader := 0, plays := [(0, a)] } (0, a) [] rfl rfl rfl
      (by rw [hE2h 1 (by omega)]; exact hn 1 (by omega))
  rw [hE2h 1 (by omega)] at hc1m
  set A1 := (handOf e 1).erase c1 with hA1def
  set E3 := { e with rng := r1
                   , hands := (e.hands.set 0 A0).set 1 A1
                   , current_trick := some { leader := 0, plays := [(0, a), (1, c1)] }
                   , current_player := ((e.current_player + 1) % 4 + 1) % 4 } with hE3def
  have ho1' : oppPlay 1 (suit_of a) E2 = (E3, false) := by
    rw [ho1, hE2h 1 (by omega)]
    rfl
  have hE3h2 : handOf E3 2 = handOf e 2 := by
    show ((e.hands.set 0 A0).set 1 A1).getD 2 [] = handOf e 2
    rw [getD_set_ne _ 1 2 _ _ (by omega), getD_set_ne _ 0 2 _ _ (by omega)]
    rfl
  have hE3h3 : handOf E3 3 = handOf e 3 := by
    show ((e.hands.set 0 A0).set 1 A1).getD 3 [] = handOf e 3
    rw [getD_set_ne _ 1 3 _ _ (by omega), getD_set_ne _ 0 3 _ _ (by omega)]
    rfl
  obtain ⟨c2, r2, hc2m, ho2⟩ :=
    oppPlay_spec E3 2 (suit_of a) { leader := 0, plays := [(0, a), (1, c1)] } (0, a) [(1, c1)]
      rfl rfl rfl (by rw [hE3h2]; exact hn 2 (by omega))
  rw [hE3h2] at hc2m
  set A2 := (handOf e 2).erase c2 with hA2def
  set E4 := { e with rng := r2
                   , hands := ((e.hands.set 0 A0).set 1 A1).set 2 A2
                   , current_trick := some { leader := 0, plays := [(0, a), (1, c1), (2, c2)] }
                   , current_player := (((e.current_player + 1) % 4 + 1) % 4 + 1) % 4 } with hE4def
  have ho2' : oppPlay 2 (suit_of a) E3 = (E4, false) := by
    rw [ho2, hE3h2]
    rfl
  have hE4h3 : handOf E4 3 = handOf e 3 := by
    show (((e.hands.set 0 A0).set 1 A1).set 2 A2).getD 3 [] = handOf e 3
    rw [getD_set_ne _ 2 3 _ _ (by omega), getD_set_ne _ 1 3 _ _ (by omega),
        getD_set_ne _ 0 3 _ _ (by omega)]
    rfl
  obtain ⟨c3, r3, hc3m, ho3⟩ :=
    oppPlay_spec E4 3 (suit_of a) { leader := 0, plays := [(0, a), (1, c1), (2, c2)] } (0, a)
      [(1, c1), (2, c2)] rfl rfl rfl (by rw [hE4h3]; exact hn 3 (by omega))
  rw [hE4h3] at hc3m
  set A3 := (handOf e 3).erase c3 with hA3def
  set E5 := { e with rng := r3
                   , hands := (((e.hands.set 0 A0).set 1 A1).set 2 A2).set 3 A3
                   , current_trick := some { leader := 0, plays := [(0, a), (1, c1), (2, c2), (3, c3)] }
                   , current_player := ((((e.current_player + 1) % 4 + 1) % 4 + 1) % 4 + 1) % 4 } with hE5def
  have ho3' : oppPlay 3 (suit_of a) E4 = (E5, false) := by
    rw [ho3, hE4h3]
    rfl
  have hbody : CardGameEnv.stepBody e a = (E5, false) := by
    unfold CardGameEnv.stepBody
    rw [hfresh, hp0]
    dsimp only
    rw [show leadSuitOf E2 = suit_of a from rfl]
    rw [ho1']
    dsimp only
    rw [ho2']
    dsimp only
    rw [ho3']
    rfl
  have htc : CardGameEnv._is_trick_complete E5 = true := rfl
  have hE5h0 : handOf E5 0 = A0 := by
    show ((((e.hands.set 0 A0).set 1 A1).set 2 A2).set 3 A3).getD 0 [] = A0
    rw [getD_set_ne _ 3 0 _ _ (by omega), getD_set_ne _ 2 0 _ _ (by omega),
        getD_set_ne _ 1 0 _ _ (by omega), getD_set_self _ 0 _ _ h0lt]
  have hE5h1 : handOf E5 1 = A1 := by
    show ((((e.hands.set 0 A0).set 1 A1).set 2 A2).set 3 A3).getD 1 [] = A1
    rw [getD_set_ne _ 3 1 _ _ (by omega), getD_set_ne _ 2 1 _ _ (by omega),
        getD_set_self _ 1 _ _ (by simp [h4])]
  have hE5h2 : handOf E5 2 = A2 := by
    show ((((e.hands.set 0 A0).set 1 A1).set 2 A2).set 3 A3).getD 2 [] = A2
    rw [getD_set_ne _ 3 2 _ _ (by omega),
        getD_set_self _ 2 _ _ (by simp [h4])]
  have hE5h3 : handOf E5 3 = A3 := by
    show ((((e.hands.set 0 A0).set 1 A1).set 2 A2).set 3 A3).getD 3 [] = A3
    rw [getD_set_self _ 3 _ _ (by simp [h4])]
  set w := teamOf (maxByRank [(0, a), (1, c1), (2, c2), (3, c3)]).1 with hwdef
  set tens := ([(0, a), (1, c1), (2, c2), (3, c3)].filter
    (fun pc => rank_of pc.2 == 8)).length with htensdef
  set E6 := { E5 with tricks_won := bumpT w 1 e.tricks_won
                    , tens_won := if tens ≠ 0 then bumpT w tens e.tens_won else e.tens_won
                    , rounds_played := e.rounds_played + 1
                    , current_player := 0
                    , current_trick := some { leader := 0, plays := [] }
                    , done := e.done || A0.isEmpty } with hE6def
  have hscore : CardGameEnv._end_trick_and_score E5 =
      (CardGameEnv.compute_reward w, E6) := by
    rw [end_trick_spec E5 { leader := 0, plays := [(0, a), (1, c1), (2, c2), (3, c3)] } rfl,
        hE5h0]
  set out : StepOut := { obs := CardGameEnv._obs E6
                       , reward := CardGameEnv.compute_reward w
                       , terminated := E6.done
                       , truncated := false } with houtdef
  have hstep : CardGameEnv.stepAux e a = ((E6, Except.ok out), false) := by
    unfold CardGameEnv.stepAux
    rw [if_neg (by simp [hdone]), if_neg (not_not_intro ha)]
    dsimp only
    rw [hbody]
    dsimp only
    rw [htc, if_pos rfl, hscore]
  have hw01 : w = 0 ∨ w = 1 := by
    rw [hwdef]
    unfold teamOf
    split_ifs <;> simp
  have hA0l : A0.length = 13 - e.rounds_played - 1 := by
    rw [hA0def, List.length_erase_of_mem ha, hlen 0 (by omega)]
  refine ⟨E6, out, w, hstep, ?_, rfl, hw01, rfl, ?_, rfl, rfl⟩
  · refine ⟨?_, ?_, ?_, rfl, ?_, ?_⟩
    · show ((((e.hands.set 0 A0).set 1 A1).set 2 A2).set 3 A3).length = 4
      simp [h4]
    · show e.rounds_played + 1 ≤ 13
      omega
    · intro pid hp
      have hE60 : handOf E6 0 = A0 := hE5h0
      have hE61 : handOf E6 1 = A1 := hE5h1
      have hE62 : handOf E6 2 = A2 := hE5h2
      have hE63 : handOf E6 3 = A3 := hE5h3
      have hgoal : (handOf E6 pid).length = 13 - (e.rounds_played + 1) := by
        interval_cases pid
        · rw [hE60, hA0def, List.length_erase_of_mem ha, hlen 0 (by omega)]
          omega
        · rw [hE61, hA1def, List.length_erase_of_mem hc1m, hlen 1 (by omega)]
          omega
        · rw [hE62, hA2def, List.length_erase_of_mem hc2m, hlen 2 (by omega)]
          omega
        · rw [hE63, hA3def, List.length_erase_of_mem hc3m, hlen 3 (by omega)]
          omega
      exact hgoal
    · show (e.done || A0.isEmpty) = true ↔ e.rounds_played + 1 = 13
      rw [hdone]
      simp only [Bool.false_or]
      rw [List.isEmpty_iff]
      constructor
      · intro hemp
        rw [hemp] at hA0l
        simp at hA0l
        omega
      · intro h13
        refine List.length_eq_zero.1 ?_
        omega
    · show (bumpT w 1 e.tricks_won).1 + (bumpT w 1 e.tricks_won).2 = e.rounds_played + 1
      rcases hw01 with hw | hw <;> rw [hw] <;> unfold bumpT <;> simp <;> omega
  · by_cases hk : tens ≠ 0
    · refine ⟨tens, ?_⟩
      show (if tens ≠ 0 then bumpT w tens e.tens_won else e.tens_won) = bumpT w tens e.tens_won
      rw [if_pos hk]
    · refine ⟨0, ?_⟩
      show (if tens ≠ 0 then bumpT w tens e.tens_won else e.tens_won) = bumpT w 0 e.tens_won
      rw [if_neg hk, bumpT_zero]

/-- Every reachable state satisfies the invariant. -/
lemma reach_inv (e : CardGameEnv) (h : Reach e) : Inv e := by
  induction h with
  | reset e0 => exact inv_reset e0
  | step e a _ ih =>
    by_cases hd : e.done = true
    · have hs : CardGameEnv.step e a = (e, Except.error Err.episodeFinished) := by
        unfold CardGameEnv.step
        rw [step_done e a hd]
      rw [hs]
      exact ih
    · have hd' : e.done = false := by
        cases hb : e.done
        · rfl
        · exact absurd hb hd
      by_cases hm : a ∈ handOf e 0
      · obtain ⟨e2, out, w, hstep, hInv, _⟩ := step_ok_spec e a ih hd' hm
        have hs : CardGameEnv.step e a = (e2, Except.ok out) := by
          unfold CardGameEnv.step
          rw [hstep]
        rw [hs]
        exact hInv
      · have hs : CardGameEnv.step e a = (e, Except.error Err.invalidAction) := by
          unfold CardGameEnv.step
          rw [step_invalid e a hd' hm]
        rw [hs]
        exact ih

/-! ### Fixtures for the witnesses -/

def rng0 : Rng := { seq := fun _ => 0, idx := 0 }

def env0 : CardGameEnv := CardGameEnv.init rng0

def envR : CardGameEnv := (CardGameEnv.reset env0).1

def envD : CardGameEnv := { env0 with done := true }

/-- A mid-trick state: seat 0 has led the club `5`, seat 1 holds only
the diamonds `13` and `14`. -/
def env1 : CardGameEnv :=
  { rng := rng0
  , hands := [[0, 1], [13, 14], [2], [3]]
  , tricks_won := (0, 0)
  , tens_won := (0, 0)
  , current_trick := some { leader := 0, plays := [(0, 5)] }
  , current_player := 1
  , done := false
  , dealt := true
  , rounds_played := 0 }

/-- A state holding a full trick of four plays, ready to be scored. -/
def env2 : CardGameEnv :=
  { rng := rng0
  , hands := [[0], [14], [28], [42]]
  , tricks_won := (3, 2)
  , tens_won := (1, 0)
  , current_trick := some { leader := 0, plays := [(0, 8), (1, 21), (2, 34), (3, 44)] }
  , current_player := 0
  , done := false
  , dealt := true
  , rounds_played := 5 }

/-! ### Claim theorems -/

theorem C1_witness :
    ∃ c, (CardGameEnv._play_card 1 13 env1).1.current_trick
          = some { leader := 0, plays := [(0, 5), (1, c)] } ∧
      (suit_of c = suit_of 5 ∨
        (c = 13 ∧ ∀ x ∈ handOf env1 1, suit_of x ≠ suit_of 5)) :=
  C1_suit_following env1 1 13 { leader := 0, plays := [(0, 5)] } (0, 5) [] rfl rfl (by decide)

/-- C2: for every completed trick of 4 plays, the winning seat is the
seat of the play with maximum `rank_of`, suit ignored; on rank ties the
first such play in play order wins (`maxByRank` is the first maximum),
and the winning seat's team (0 for seats 0 and 2, else 1) has its
`tricks_won` entry incremented by exactly 1. -/
theorem C2_trick_winner (e : CardGameEnv) (t : TrickState)
    (ht : e.current_trick = some t) (hlen : t.plays.length = 4) :
    ∃ l1 l2,
      t.plays = l1 ++ (maxByRank t.plays) :: l2 ∧
      (∀ q ∈ l1, rank_of q.2 < rank_of (maxByRank t.plays).2) ∧
      (∀ q ∈ l2, rank_of q.2 ≤ rank_of (maxByRank t.plays).2) ∧
      tricksOf (CardGameEnv._end_trick_and_score e).2 (teamOf (maxByRank t.plays).1)
        = tricksOf e (teamOf (maxByRank t.plays).1) + 1 ∧
      teamOf (maxByRank t.plays).1
        = (if (maxByRank t.plays).1 = 0 ∨ (maxByRank t.plays).1 = 2 then 0 else 1) := by
  have hne : t.plays ≠ [] := by
    intro h
    rw [h] at hlen
    simp at hlen
  obtain ⟨l1, l2, hdec, hlt, hle⟩ := maxByRank_firstmax t.plays hne
  refine ⟨l1, l2, hdec, hlt, hle, ?_, rfl⟩
  rw [end_trick_spec e t ht]
  have hw : teamOf (maxByRank t.plays).1 = 0 ∨ teamOf (maxByRank t.plays).1 = 1 := by
    unfold teamOf
    split_ifs <;> simp
  unfold tricksOf bumpT
  rcases hw with hw | hw <;> rw [hw] <;> simp

theorem C2_witness :
    tricksOf (CardGameEnv._end_trick_and_score env2).2
        (teamOf (maxByRank [(0, 8), (1, 21), (2, 34), (3, 44)]).1)
      = tricksOf env2 (teamOf (maxByRank [(0, 8), (1, 21), (2, 34), (3, 44)]).1) + 1 := by
  obtain ⟨_, _, _, _, _, h, _⟩ :=
    C2_trick_winner env2 { leader := 0, plays := [(0, 8), (1, 21), (2, 34), (3, 44)] }
      rfl (by decide)
  exact h

/-- C3: when a trick of 4 plays is scored, the winning team's
`tens_won` grows by exactly the number of played cards of rank 8 (the
10 pip), the other team's two counters are unchanged, and across any
`step` call all four counters are monotonically non-decreasing. -/
theorem C3_tens_accounting :
    (∀ e t, e.current_trick = some t → t.plays.length = 4 →
      tensOf (CardGameEnv._end_trick_and_score e).2 (teamOf (maxByRank t.plays).1)
        = tensOf e (teamOf (maxByRank t.plays).1)
          + (t.plays.filter (fun pc => rank_of pc.2 == 8)).length ∧
      tensOf (CardGameEnv._end_trick_and_score e).2 (1 - teamOf (maxByRank t.plays).1)
        = tensOf e (1 - teamOf (maxByRank t.plays).1) ∧
      tricksOf (CardGameEnv._end_trick_and_score e).2 (1 - teamOf (maxByRank t.plays).1)
        = tricksOf e (1 - teamOf (maxByRank t.plays).1)) ∧
    (∀ e a, tricksOf e 0 ≤ tricksOf (CardGameEnv.step e a).1 0 ∧
      tricksOf e 1 ≤ tricksOf (CardGameEnv.step e a).1 1 ∧
      tensOf e 0 ≤ tensOf (CardGameEnv.step e a).1 0 ∧
      tensOf e 1 ≤ tensOf (CardGameEnv.step e a).1 1) := by
  constructor
  · intro e t ht hlen
    rw [end_trick_spec e t ht]
    have hw : teamOf (maxByRank t.plays).1 = 0 ∨ teamOf (maxByRank t.plays).1 = 1 := by
      unfold teamOf
      split_ifs <;> simp
    by_cases hk : (t.plays.filter (fun pc => rank_of pc.2 == 8)).length ≠ 0
    · rcases hw with hw | hw <;> rw [hw] <;>
        unfold tensOf tricksOf bumpT <;> simp [hk]
    · have hk0 : (t.plays.filter (fun pc => rank_of pc.2 == 8)).length = 0 :=
        not_ne_iff.1 hk
      rcases hw with hw | hw <;> rw [hw] <;>
        unfold tensOf tricksOf bumpT <;> simp [hk, hk0]
  · intro e a
    unfold CardGameEnv.step
    by_cases hd : e.done = true
    · rw [step_done e a hd]
      exact ⟨le_refl _, le_refl _, le_refl _, le_refl _⟩
    · have hd' : e.done = false := by
        cases hb : e.done
        · rfl
        · exact absurd hb hd
      by_cases hm : a ∈ handOf e 0
      · unfold CardGameEnv.stepAux
        rw [if_neg (by simp [hd']), if_neg (not_not_intro hm)]
        dsimp only
        obtain ⟨s1, s2, _, _⟩ := stepBody_counters e a
        by_cases hc : CardGameEnv._is_trick_complete (CardGameEnv.stepBody e a).1 = true
        · rw [hc, if_pos rfl]
          obtain ⟨m1, m2, m3, m4⟩ := end_trick_mono (CardGameEnv.stepBody e a).1
          rw [s1] at m1 m2
          rw [s2] at m3 m4
          exact ⟨m1, m2, m3, m4⟩
        · have hc' : CardGameEnv._is_trick_complete (CardGameEnv.stepBody e a).1 = false := by
            cases hb : CardGameEnv._is_trick_complete (CardGameEnv.stepBody e a).1
            · rfl
            · exact absurd hb hc
          rw [hc']
          rw [if_neg (by simp)]
          refine ⟨le_of_eq ?_, le_of_eq ?_, le_of_eq ?_, le_of_eq ?_⟩
          · exact (congrArg Prod.fst s1).symm
          · exact (congrArg Prod.snd s1).symm
          · exact (congrArg Prod.fst s2).symm
          · exact (congrArg Prod.snd s2).symm
      · rw [step_invalid e a hd' hm]
        exact ⟨le_refl _, le_refl _, le_refl _, le_refl _⟩

theorem C3_witness :
    tensOf (CardGameEnv._end_trick_and_score env2).2
        (teamOf (maxByRank [(0, 8), (1, 21), (2, 34), (3, 44)]).1)
      = tensOf env2 (teamOf (maxByRank [(0, 8), (1, 21), (2, 34), (3, 44)]).1)
        + ([(0, 8), (1, 21), (2, 34), (3, 44)].filter
            (fun pc => rank_of pc.2 == 8)).length := by
  obtain ⟨h, _, _⟩ :=
    C3_tens_accounting.1 env2 { leader := 0, plays := [(0, 8), (1, 21), (2, 34), (3, 44)] }
      rfl (by decide)
  exact h

/-- C4: for every generator state (i.e. every seed), after `reset` the
four dealt hands have 13 cards each, are sorted ascending and
duplicate-free, are pairwise disjoint, and jointly cover exactly the
card identifiers `0..51`. -/
theorem C4_deal_partition (e : CardGameEnv) :
    (CardGameEnv.reset e).1.hands.length = 4 ∧
    (∀ h ∈ (CardGameEnv.reset e).1.hands, h.length = 13 ∧ h.Sorted (· ≤ ·) ∧ h.Nodup) ∧
    (CardGameEnv.reset e).1.hands.Pairwise List.Disjoint ∧
    (∀ c : Nat, (∃ h ∈ (CardGameEnv.reset e).1.hands, c ∈ h) ↔ c < 52) :=
  deal_core e

theorem C4_witness : (CardGameEnv.reset env0).1.hands.length = 4 :=
  (C4_deal_partition env0).1

/-- C5: `reset` starts at round 0 with `done` false; on every reachable
state `done` holds exactly when 13 rounds have been played, exactly when
seat 0's hand is empty; once `done`, every `step` fails with the
episode-finished error and leaves the state unchanged (until a `reset`);
and every successful `step` performs exactly one trick resolution. -/
theorem C5_termination :
    (∀ e0 : CardGameEnv, (CardGameEnv.reset e0).1.rounds_played = 0 ∧
      (CardGameEnv.reset e0).1.done = false) ∧
    (∀ e, Reach e →
      ((e.done = true ↔ e.rounds_played = 13) ∧
       (e.done = true ↔ handOf e 0 = []) ∧
       (∀ a, e.done = true →
         CardGameEnv.step e a = (e, Except.error Err.episodeFinished)) ∧
       (∀ a e' out, CardGameEnv.step e a = (e', Except.ok out) →
         e.done = false ∧ e'.rounds_played = e.rounds_played + 1))) := by
  refine ⟨fun e0 => ⟨(reset_fields e0).1, (reset_fields e0).2.1⟩, ?_⟩
  intro e hr
  obtain ⟨h4, hr13, hlen, ht, hdfl, hsum⟩ := reach_inv e hr
  refine ⟨hdfl, ?_, ?_, ?_⟩
  · rw [hdfl]
    have h0 := hlen 0 (by omega)
    constructor
    · intro h13
      rw [h13] at h0
      simp at h0
      exact h0
    · intro hnil
      rw [hnil] at h0
      simp at h0
      omega
  · intro a hdone
    unfold CardGameEnv.step
    rw [step_done e a hdone]
  · intro a e' out hs
    by_cases hd : e.done = true
    · have heq : CardGameEnv.step e a = (e, Except.error Err.episodeFinished) := by
        unfold CardGameEnv.step
        rw [step_done e a hd]
      rw [heq] at hs
      injection hs with h1 h2
      exact absurd h2 (by simp)
    · have hd' : e.done = false := by
        cases hb : e.done
        · rfl
        · exact absurd hb hd
      refine ⟨hd', ?_⟩
      by_cases hm : a ∈ handOf e 0
      · obtain ⟨e2, out2, w, hstep, _, hrounds, _⟩ :=
          step_ok_spec e a ⟨h4, hr13, hlen, ht, hdfl, hsum⟩ hd' hm
        have heq : CardGameEnv.step e a = (e2, Except.ok out2) := by
          unfold CardGameEnv.step
          rw [hstep]
        rw [heq] at hs
        injection hs with h1 h2
        rw [← h1]
        exact hrounds
      · have heq : CardGameEnv.step e a = (e, Except.error Err.invalidAction) := by
          unfold CardGameEnv.step
          rw [step_invalid e a hd' hm]
        rw [heq] at hs
        injection hs with h1 h2
        exact absurd h2 (by simp)

theorem C5_witness :
    (CardGameEnv.reset env0).1.done = true ↔ (CardGameEnv.reset env0).1.rounds_played = 13 :=
  (C5_termination.2 (CardGameEnv.reset env0).1 (Reach.reset env0)).1

/-- C6: `step` fails with the episode-finished error when `done` is
set, fails with the invalid-action error when the submitted card is not
in seat 0's hand, and in both cases returns the state exactly as it was
(no partial application). -/
theorem C6_step_errors (e : CardGameEnv) (a : Nat) :
    (e.done = true → CardGameEnv.step e a = (e, Except.error Err.episodeFinished)) ∧
    (e.done = false → a ∉ handOf e 0 →
      CardGameEnv.step e a = (e, Except.error Err.invalidAction)) := by
  constructor
  · intro h
    unfold CardGameEnv.step
    rw [step_done e a h]
  · intro h hm
    unfold CardGameEnv.step
    rw [step_invalid e a h hm]

theorem C6_witness :
    CardGameEnv.step envD 5 = (envD, Except.error Err.episodeFinished) :=
  (C6_step_errors envD 5).1 rfl

/-- C7: for every card identifier below 52, encoding the decoded
rank/suit pair returns the identifier. -/
theorem C7_codec_roundtrip (id : Nat) (h : id < 52) :
    encode_card (decode_card id).1 (decode_card id).2 = id := by
  unfold encode_card decode_card rank_of suit_of
  omega

theorem C7_witness :
    37 < 52 ∧ encode_card (decode_card 37).1 (decode_card 37).2 = 37 :=
  ⟨by decide, C7_codec_roundtrip 37 (by decide)⟩

/-- C8: the default reward is `+1` exactly for team 0 and `-1`
otherwise; on every reachable state the two `tricks_won` counters sum to
the number of resolved tricks; and every successful `step` yields reward
`+1` when team 0's trick counter is the one incremented, `-1` when team
1's is. -/
theorem C8_reward :
    (CardGameEnv.compute_reward 0 = 1 ∧ ∀ w, w ≠ 0 → CardGameEnv.compute_reward w = -1) ∧
    (∀ e, Reach e → e.tricks_won.1 + e.tricks_won.2 = e.rounds_played) ∧
    (∀ e a e' out, Reach e → CardGameEnv.step e a = (e', Except.ok out) →
      ((out.reward = 1 ∧ e'.tricks_won.1 = e.tricks_won.1 + 1 ∧
          e'.tricks_won.2 = e.tricks_won.2) ∨
       (out.reward = -1 ∧ e'.tricks_won.2 = e.tricks_won.2 + 1 ∧
          e'.tricks_won.1 = e.tricks_won.1))) := by
  refine ⟨⟨rfl, ?_⟩, ?_, ?_⟩
  · intro w hw
    unfold CardGameEnv.compute_reward
    rw [if_neg hw]
  · intro e hr
    exact (reach_inv e hr).2.2.2.2.2
  · intro e a e' out hr hs
    have hI := reach_inv e hr
    by_cases hd : e.done = true
    · have heq : CardGameEnv.step e a = (e, Except.error Err.episodeFinished) := by
        unfold CardGameEnv.step
        rw [step_done e a hd]
      rw [heq] at hs
      injection hs with h1 h2
      exact absurd h2 (by simp)
    · have hd' : e.done = false := by
        cases hb : e.done
        · rfl
        · exact absurd hb hd
      by_cases hm : a ∈ handOf e 0
      · obtain ⟨e2, out2, w, hstep, _, _, hw01, htr, _, hrw, _⟩ :=
          step_ok_spec e a hI hd' hm
        have heq : CardGameEnv.step e a = (e2, Except.ok out2) := by
          unfold CardGameEnv.step
          rw [hstep]
        rw [heq] at hs
        injection hs with h1 h2
        injection h2 with h2
        rw [← h1, ← h2]
        rcases hw01 with hw | hw
        · left
          refine ⟨by rw [hrw, hw]; rfl, by rw [htr, hw]; rfl, by rw [htr, hw]; rfl⟩
        · right
          refine ⟨by rw [hrw, hw]; rfl, by rw [htr, hw]; rfl, by rw [htr, hw]; rfl⟩
      · have heq : CardGameEnv.step e a = (e, Except.error Err.invalidAction) := by
          unfold CardGameEnv.step
          rw [step_invalid e a hd' hm]
        rw [heq] at hs
        injection hs with h1 h2
        exact absurd h2 (by simp)

theorem C8_witness :
    (CardGameEnv.reset env0).1.tricks_won.1 + (CardGameEnv.reset env0).1.tricks_won.2
      = (CardGameEnv.reset env0).1.rounds_played :=
  C8_reward.2.1 (CardGameEnv.reset env0).1 (Reach.reset env0)

/-- C9: the environment is deterministic under a fixed seed: two
instances whose generators are in the same state produce, after `reset`
and the same sequence of actions, the same deal and the same sequence of
step results (observations, rewards, termination flags and opponent
plays included). -/
theorem C9_seed_determinism (e1 e2 : CardGameEnv) (h : e1.rng = e2.rng) (acts : List Nat) :
    CardGameEnv.reset e1 = CardGameEnv.reset e2 ∧
    runSteps (CardGameEnv.reset e1).1 acts = runSteps (CardGameEnv.reset e2).1 acts := by
  have hres : CardGameEnv.reset e1 = CardGameEnv.reset e2 := by
    unfold CardGameEnv.reset
    rw [h]
  exact ⟨hres, by rw [hres]⟩

theorem C9_witness :
    CardGameEnv.reset env0 = CardGameEnv.reset env0 ∧
    runSteps (CardGameEnv.reset env0).1 [0, 1] = runSteps (CardGameEnv.reset env0).1 [0, 1] :=
  C9_seed_determinism env0 env0 rfl [0, 1]

/-- C10: in every reachable execution of `step`, the revert-and-replace
branch of `_play_card` never executes — the agent always leads a fresh
trick and every auto-policy seat picks a lead-suit card when it has one,
so no appended play is ever popped and no card is ever returned to a
hand.  The `Bool` returned by `stepAux` records whether any of the four
`_play_card` calls fired that branch. -/
theorem C10_no_revert (e : CardGameEnv) (h : Reach e) (a : Nat) :
    (CardGameEnv.stepAux e a).2 = false := by
  by_cases hd : e.done = true
  · rw [step_done e a hd]
  · have hd' : e.done = false := by
      cases hb : e.done
      · rfl
      · exact absurd hb hd
    by_cases hm : a ∈ handOf e 0
    · obtain ⟨e2, out2, w, hstep, _⟩ := step_ok_spec e a (reach_inv e h) hd' hm
      rw [hstep]
    · rw [step_invalid e a hd' hm]

theorem C10_witness : (CardGameEnv.stepAux (CardGameEnv.reset env0).1 5).2 = false :=
  C10_no_revert (CardGameEnv.reset env0).1 (Reach.reset env0) 5

end CardRL
